import Mathlib

/-!
# Budget Impact Lens — background ingestion pipeline, formal model

A shallow embedding of the core of the `budget-impact-lens` backend: the
fingerprint-based deduplication, the AI impact extractor with its quota /
malformed / transient failure policy, the ingestion pipeline (`run_once`),
the reconciliation (retry) service, and the scheduler's mutual-exclusion
guard.  The persisted `policies` table is embedded from the SQL schema in
`test-connection.sh` / the backend README; the pipeline, extractor,
scheduler and retry logic of `scraper.py` / `analyzer.py` / `main.py` are
not present in the repository snapshot and are modelled from the
specification, as noted on each definition.
-/

namespace BudgetImpactLens

/-- A raw candidate record produced by the Candidate Source Adapter
(title, summary, link, published date, source tag). -/
structure CandidateRecord where
  title : String
  summary : String
  link : String
  published_date : String
  source : String
  deriving DecidableEq, Repr

/-- A fingerprint digest.  Modelled from the spec: the digest of a
cryptographic content hash is idealised as the normalized content itself
(a pair: normalized title, key field), so that equal digests coincide
exactly with equal normalized inputs. -/
abbrev Digest := String × String

/-- Drop leading and trailing whitespace from a character list. -/
def trimChars (l : List Char) : List Char :=
  ((l.dropWhile Char.isWhitespace).reverse.dropWhile Char.isWhitespace).reverse

/-- Title normalization before hashing: trim surrounding whitespace and
case-fold.  Modelled from the spec: "normalize before hashing: trim,
case-fold title". -/
def normalizeTitle (t : String) : String :=
  ⟨(trimChars t.data).map Char.toLower⟩

/-- Modelled from the spec: `fingerprint(candidate) -> digest`, a
deterministic digest of the normalized title plus the link, or the summary
when the link is absent (empty). -/
def fingerprint (c : CandidateRecord) : Digest :=
  (normalizeTitle c.title, if c.link = "" then c.summary else c.link)

/-- The structured output of a successful AI impact extraction
(`analyzer.py`, modelled from the spec §4.2). -/
structure Enrichment where
  category : String
  impact_type : String
  impact_value : Int
  old_value : Int
  new_value : Int
  affected_items : List String
  ai_description : String
  deriving DecidableEq, Repr

/-- Outcome of a single call to the upstream AI model, classified at the
Impact Extractor boundary.  Modelled from the spec: quota/rate-limit
failures are distinguished from malformed-output and transient failures
because the retry policy differs. -/
inductive ExtractResult where
  | success (e : Enrichment)
  | quotaExceeded
  | malformed
  | transient
  deriving DecidableEq, Repr

/-- Per-item outcome of the extractor after its internal retry policy. -/
inductive ItemOutcome where
  | enriched (e : Enrichment)
  | failedItem
  | quotaAbort
  deriving DecidableEq, Repr

/-- Modelled from the spec: one item's extraction attempt against the call
oracle `o` (call number `k` is the next upstream call).  A quota failure is
retried on the same item at most 2 more times (exponential backoff elided);
if all three calls hit quota the batch is aborted.  Malformed or transient
failures are terminal for the item, with no retry.  Returns the outcome and
the next call number. -/
def attemptExtract (o : Nat → ExtractResult) (k : Nat) : ItemOutcome × Nat :=
  match o k with
  | .success e => (.enriched e, k + 1)
  | .malformed => (.failedItem, k + 1)
  | .transient => (.failedItem, k + 1)
  | .quotaExceeded =>
    match o (k + 1) with
    | .success e => (.enriched e, k + 2)
    | .malformed => (.failedItem, k + 2)
    | .transient => (.failedItem, k + 2)
    | .quotaExceeded =>
      match o (k + 2) with
      | .success e => (.enriched e, k + 3)
      | .malformed => (.failedItem, k + 3)
      | .transient => (.failedItem, k + 3)
      | .quotaExceeded => (.quotaAbort, k + 3)

/-- Modelled from the spec: enrich a batch of surviving candidates in
order, threading the call number.  On a quota abort the current item and
every remaining item are kept but left unenriched (`none`); on an
item-local failure only that item is left unenriched and the batch
continues. -/
def enrichBatch (o : Nat → ExtractResult) (k : Nat) :
    List CandidateRecord → List (CandidateRecord × Option Enrichment)
  | [] => []
  | c :: rest =>
    match attemptExtract o k with
    | (.enriched e, k2) => (c, some e) :: enrichBatch o k2 rest
    | (.failedItem, k2) => (c, none) :: enrichBatch o k2 rest
    | (.quotaAbort, _) => (c, none) :: rest.map (fun r => (r, none))

/-- A persisted policy record, embedded from the `policies` table schema
(`CREATE TABLE policies` in `test-connection.sh` and the backend README):
raw fields, the unique `item_hash`, the nullable AI-extracted enrichment
fields, the `analyzed` flag and the immutable `created_at` timestamp. -/
structure PolicyRecord where
  id : Nat
  title : String
  summary : String
  link : String
  published_date : String
  source : String
  item_hash : Digest
  category : Option String
  impact_type : Option String
  impact_value : Option Int
  old_value : Option Int
  new_value : Option Int
  affected_items : Option (List String)
  ai_description : Option String
  analyzed : Bool
  created_at : Nat
  deriving DecidableEq, Repr

/-- The store: the `policies` table as an insertion-ordered list of rows
plus the next auto-assigned id. -/
structure Store where
  records : List PolicyRecord
  nextId : Nat
  deriving DecidableEq, Repr

/-- The empty store. -/
def emptyStore : Store := { records := [], nextId := 0 }

/-- Whether some stored record already carries the given fingerprint. -/
def Store.hasHash (s : Store) (h : Digest) : Bool :=
  s.records.any (fun r => r.item_hash = h)

/-- Embedded from the SQL schema in `test-connection.sh`: a row inserted
without explicit enrichment values receives the column defaults
`source DEFAULT 'PIB'`, `analyzed DEFAULT FALSE`,
`created_at DEFAULT NOW()`; the enrichment columns `category`,
`impact_type`, `impact_value`, `old_value`, `new_value`, `affected_items`
and `ai_description` have no default and are null. -/
def schemaDefaultRow (id : Nat) (now : Nat)
    (title summary link published_date : String) (h : Digest) : PolicyRecord :=
  { id := id, title := title, summary := summary, link := link
    published_date := published_date, source := "PIB", item_hash := h
    category := none, impact_type := none, impact_value := none
    old_value := none, new_value := none, affected_items := none
    ai_description := none, analyzed := false, created_at := now }

/-- Modelled from the spec: assemble the storage record for a surviving
candidate.  A successful extraction populates all enrichment fields and
sets `analyzed = true`; otherwise the record is persisted with the schema
defaults (all enrichment fields null, `analyzed = false`). -/
def mkRecord (id : Nat) (now : Nat) (c : CandidateRecord) :
    Option Enrichment → PolicyRecord
  | some e =>
    { id := id, title := c.title, summary := c.summary, link := c.link
      published_date := c.published_date, source := c.source
      item_hash := fingerprint c
      category := some e.category, impact_type := some e.impact_type
      impact_value := some e.impact_value, old_value := some e.old_value
      new_value := some e.new_value, affected_items := some e.affected_items
      ai_description := some e.ai_description
      analyzed := true, created_at := now }
  | none =>
    { id := id, title := c.title, summary := c.summary, link := c.link
      published_date := c.published_date, source := c.source
      item_hash := fingerprint c
      category := none, impact_type := none, impact_value := none
      old_value := none, new_value := none, affected_items := none
      ai_description := none, analyzed := false, created_at := now }

/-- Modelled from the spec: persist the batch.  On a uniqueness conflict
(a record with the same fingerprint already stored, also from earlier in
this very batch) the record is skipped silently and counted as a conflict.
Returns the new store, the number saved and the number of conflicts. -/
def insertMany (now : Nat) :
    List (CandidateRecord × Option Enrichment) → Store → Store × Nat × Nat
  | [], s => (s, 0, 0)
  | (c, e) :: rest, s =>
    if s.hasHash (fingerprint c) then
      let p := insertMany now rest s
      (p.1, p.2.1, p.2.2 + 1)
    else
      let s1 : Store :=
        { records := s.records ++ [mkRecord s.nextId now c e]
          nextId := s.nextId + 1 }
      let p := insertMany now rest s1
      (p.1, p.2.1 + 1, p.2.2)

/-- Status of an ingestion run. -/
inductive RunStatus where
  | success
  | failed
  deriving DecidableEq, Repr

/-- The aggregate result summary of `run_once`. -/
structure RunResult where
  status : RunStatus
  items_seen : Nat
  items_saved : Nat
  items_skipped_duplicate : Nat
  items_unenriched : Nat
  deriving DecidableEq, Repr

/-- Modelled from the spec: one ingestion pipeline pass.  `fetched` is the
Source Adapter's answer (`none` = the adapter failed entirely): on adapter
failure return a failure status with the store untouched.  Otherwise drop
candidates whose fingerprint is already stored (duplicate skips), enrich
the survivors through the Impact Extractor with the quota-abort policy,
persist all survivors (enriched or not), and fold the counts into the
returned summary; no internal error escapes this boundary. -/
def run_once (fetched : Option (List CandidateRecord))
    (o : Nat → ExtractResult) (now : Nat) (s : Store) : RunResult × Store :=
  match fetched with
  | none =>
    ({ status := .failed, items_seen := 0, items_saved := 0
       items_skipped_duplicate := 0, items_unenriched := 0 }, s)
  | some cs =>
    let survivors := cs.filter (fun c => !s.hasHash (fingerprint c))
    let enriched := enrichBatch o 0 survivors
    let p := insertMany now enriched s
    ({ status := .success, items_seen := cs.length, items_saved := p.2.1
       items_skipped_duplicate := (cs.length - survivors.length) + p.2.2
       items_unenriched := (enriched.filter (fun q => q.2.isNone)).length },
     p.1)

/-- Modelled from the spec: the store query
`query_unanalyzed(limit, order=oldest_first)` — up to `limit` records with
`analyzed = false`, oldest first (the store keeps rows in insertion
order). -/
def query_unanalyzed (limit : Nat) (s : Store) : List PolicyRecord :=
  (s.records.filter (fun r => !r.analyzed)).take limit

/-- Modelled from the spec: write a successful re-extraction back into a
record — populate every enrichment field and flip `analyzed` to true.
Identity, hashes, raw fields and `created_at` are untouched. -/
def applyEnrichment (e : Enrichment) (r : PolicyRecord) : PolicyRecord :=
  { r with
    category := some e.category, impact_type := some e.impact_type
    impact_value := some e.impact_value, old_value := some e.old_value
    new_value := some e.new_value, affected_items := some e.affected_items
    ai_description := some e.ai_description, analyzed := true }

/-- Modelled from the spec: the store operation
`update_enrichment(id, fields)` applied to every row with the given id. -/
def updateEnrichment (id : Nat) (e : Enrichment) (s : Store) : Store :=
  { s with records :=
      s.records.map (fun r => if r.id = id then applyEnrichment e r else r) }

/-- Modelled from the spec: the reconciliation loop body — re-attempt the
extractor on each queried record; on success update the record, on an
item-local failure skip it, on a quota abort stop the whole retry batch.
Returns the new store and the number of successes. -/
def retryGo (o : Nat → ExtractResult) (k : Nat) :
    List PolicyRecord → Store → Store × Nat
  | [], s => (s, 0)
  | r :: rest, s =>
    match attemptExtract o k with
    | (.enriched e, k2) =>
      let p := retryGo o k2 rest (updateEnrichment r.id e s)
      (p.1, p.2 + 1)
    | (.failedItem, k2) => retryGo o k2 rest s
    | (.quotaAbort, _) => (s, 0)

/-- The result summary of a reconciliation pass. -/
structure RetryResult where
  attempted : Nat
  succeeded : Nat
  still_unanalyzed : Nat
  deriving DecidableEq, Repr

/-- Modelled from the spec: `retry(limit)` — query up to `limit`
unanalyzed records oldest-first, re-attempt enrichment under the same
failure policy as ingestion, and report the counts. -/
def retry (o : Nat → ExtractResult) (limit : Nat) (s : Store) :
    RetryResult × Store :=
  let q := query_unanalyzed limit s
  let p := retryGo o 0 q s
  ({ attempted := q.length, succeeded := p.2
     still_unanalyzed := (p.1.records.filter (fun r => !r.analyzed)).length },
   p.1)

/-- One operation touching the store: an ingestion pipeline run or a
reconciliation pass. -/
inductive Op where
  | ingest (fetched : Option (List CandidateRecord))
      (o : Nat → ExtractResult) (now : Nat)
  | reconcile (o : Nat → ExtractResult) (limit : Nat)

/-- The store after one operation. -/
def applyOp (s : Store) : Op → Store
  | .ingest f o t => (run_once f o t s).2
  | .reconcile o l => (retry o l s).2

/-- The store after a sequence of operations. -/
def runOps (s : Store) : List Op → Store
  | [] => s
  | op :: rest => runOps (applyOp s op) rest

/-- A store state is reachable when some sequence of pipeline runs and
reconciliation passes produces it from the empty store. -/
def Reachable (s : Store) : Prop := ∃ ops : List Op, runOps emptyStore ops = s

/-- The group invariant on one persisted row: `analyzed = true` iff every
enrichment field is populated, `analyzed = false` iff every enrichment
field is null. -/
def enrichmentConsistent (r : PolicyRecord) : Prop :=
  (r.analyzed = true →
    r.category.isSome ∧ r.impact_type.isSome ∧ r.impact_value.isSome ∧
    r.old_value.isSome ∧ r.new_value.isSome ∧ r.affected_items.isSome ∧
    r.ai_description.isSome) ∧
  (r.analyzed = false →
    r.category = none ∧ r.impact_type = none ∧ r.impact_value = none ∧
    r.old_value = none ∧ r.new_value = none ∧ r.affected_items = none ∧
    r.ai_description = none)

instance (r : PolicyRecord) : Decidable (enrichmentConsistent r) := by
  unfold enrichmentConsistent; infer_instance

/-- The observable used for the temporal claims: whether the store holds
some row with the given id that is analyzed. -/
def analyzedInStore (id : Nat) (s : Store) : Bool :=
  s.records.any (fun r => r.id = id && r.analyzed)

/-- The shared scheduler state blob (`scraper_state` in `main.py`,
modelled from the spec): the `is_running` mutual-exclusion guard, the
count of pipeline executions currently in flight, the `enabled` toggle and
the cumulative run counter. -/
structure SchedulerState where
  is_running : Bool
  inFlight : Nat
  enabled : Bool
  total_runs : Nat
  deriving DecidableEq, Repr

/-- Scheduler events: a scheduled tick firing, a manual trigger, a run
finishing, and the enabled toggle. -/
inductive SchedEvent where
  | scheduledFire
  | manualTrigger
  | finishRun
  | toggle (b : Bool)
  deriving DecidableEq, Repr

/-- Modelled from the spec: the cooperative (single-process, atomic
check-and-set) transition function of the scheduler.  Both the scheduled
loop and the manual trigger start a run only when `is_running` is false;
a manual trigger arriving while a run is in flight is rejected as a no-op;
the scheduled tick additionally respects the `enabled` flag. -/
def schedStep (st : SchedulerState) : SchedEvent → SchedulerState
  | .scheduledFire =>
    if st.enabled && !st.is_running then
      { st with is_running := true, inFlight := st.inFlight + 1 }
    else st
  | .manualTrigger =>
    if st.is_running then st
    else { st with is_running := true, inFlight := st.inFlight + 1 }
  | .finishRun =>
    if st.is_running then
      { st with is_running := false, inFlight := st.inFlight - 1
                total_runs := st.total_runs + 1 }
    else st
  | .toggle b => { st with enabled := b }

/-- The scheduler state after a sequence of events. -/
def schedRun (st : SchedulerState) : List SchedEvent → SchedulerState
  | [] => st
  | ev :: rest => schedRun (schedStep st ev) rest

/-- The initial scheduler state: idle, nothing in flight. -/
def initSched : SchedulerState :=
  { is_running := false, inFlight := 0, enabled := true, total_runs := 0 }

/-! ## Basic lemmas about the extraction batch -/

/-- Enrichment never loses or reorders candidates: the first components of
the batch result are exactly the input candidates. -/
theorem enrichBatch_map_fst (o : Nat → ExtractResult) (k : Nat)
    (l : List CandidateRecord) : (enrichBatch o k l).map Prod.fst = l := by
  induction l generalizing k with
  | nil => rfl
  | cons c rest ih =>
    rcases hae : attemptExtract o k with ⟨out, k2⟩
    cases out <;>
      simp [enrichBatch, hae, ih, List.map_map, Function.comp_def]

/-- The extractor makes at most three upstream calls per item. -/
theorem attemptExtract_calls_le (o : Nat → ExtractResult) (k : Nat) :
    (attemptExtract o k).2 ≤ k + 3 := by
  unfold attemptExtract
  rcases o k with e | _ | _ | _ <;> simp
  rcases o (k + 1) with e | _ | _ | _ <;> simp
  rcases o (k + 2) with e | _ | _ | _ <;> simp

/-! ## Basic lemmas about the store operations -/

/-- `insertMany` only ever appends to the stored rows. -/
theorem insertMany_records_append (now : Nat)
    (items : List (CandidateRecord × Option Enrichment)) (s : Store) :
    ∃ l, ((insertMany now items s).1).records = s.records ++ l := by
  induction items generalizing s with
  | nil => exact ⟨[], by simp [insertMany]⟩
  | cons p rest ih =>
    rcases p with ⟨c, e⟩
    by_cases h : s.hasHash (fingerprint c) = true
    · obtain ⟨l, hl⟩ := ih s
      exact ⟨l, by simp only [insertMany, h, if_true]; exact hl⟩
    · obtain ⟨l, hl⟩ := ih
        { records := s.records ++ [mkRecord s.nextId now c e]
          nextId := s.nextId + 1 }
      refine ⟨mkRecord s.nextId now c e :: l, ?_⟩
      simp only [insertMany, h, if_false, Bool.false_eq_true]
      rw [hl]; simp

/-- A fingerprint present in the store stays present through `insertMany`. -/
theorem hasHash_insertMany_mono (now : Nat)
    (items : List (CandidateRecord × Option Enrichment)) (s : Store)
    (h : Digest) (hh : s.hasHash h = true) :
    ((insertMany now items s).1).hasHash h = true := by
  obtain ⟨l, hl⟩ := insertMany_records_append now items s
  simp only [Store.hasHash] at hh ⊢
  rw [hl, List.any_append, hh, Bool.true_or]

/-- Every item handed to `insertMany` has its fingerprint stored
afterwards (inserted now, or already present). -/
theorem insertMany_hasHash_mem (now : Nat)
    (items : List (CandidateRecord × Option Enrichment)) (s : Store) :
    ∀ ce ∈ items, ((insertMany now items s).1).hasHash (fingerprint ce.1) = true := by
  induction items generalizing s with
  | nil => intro ce hce; cases hce
  | cons p rest ih =>
    rcases p with ⟨c, e⟩
    intro ce hce
    by_cases h : s.hasHash (fingerprint c) = true
    · simp only [insertMany, h, if_true]
      rcases List.mem_cons.mp hce with rfl | hce
      · exact hasHash_insertMany_mono now rest s _ h
      · exact ih s ce hce
    · simp only [insertMany, h, if_false, Bool.false_eq_true]
      rcases List.mem_cons.mp hce with rfl | hce
      · apply hasHash_insertMany_mono
        cases e <;> simp [Store.hasHash, mkRecord]
      · exact ih _ ce hce

/-! ## The enrichment-group invariant is preserved by every operation -/

/-- Every stored row satisfies the enrichment-group invariant. -/
def storeConsistent (s : Store) : Prop :=
  ∀ r ∈ s.records, enrichmentConsistent r

/-- Freshly assembled storage records satisfy the group invariant. -/
theorem enrichmentConsistent_mkRecord (id now : Nat) (c : CandidateRecord)
    (e : Option Enrichment) : enrichmentConsistent (mkRecord id now c e) := by
  cases e <;> simp [mkRecord, enrichmentConsistent]

/-- A record updated by a successful re-extraction satisfies the group
invariant. -/
theorem enrichmentConsistent_applyEnrichment (e : Enrichment)
    (r : PolicyRecord) : enrichmentConsistent (applyEnrichment e r) := by
  simp [applyEnrichment, enrichmentConsistent]

theorem storeConsistent_insertMany (now : Nat)
    (items : List (CandidateRecord × Option Enrichment)) (s : Store)
    (hs : storeConsistent s) : storeConsistent (insertMany now items s).1 := by
  induction items generalizing s with
  | nil => exact hs
  | cons p rest ih =>
    rcases p with ⟨c, e⟩
    by_cases h : s.hasHash (fingerprint c) = true
    · simp only [insertMany, h, if_true]
      exact ih s hs
    · simp only [insertMany, h, if_false, Bool.false_eq_true]
      apply ih
      intro r hr
      rcases List.mem_append.mp hr with hr | hr
      · exact hs r hr
      · rcases List.mem_singleton.mp hr with rfl
        exact enrichmentConsistent_mkRecord _ _ _ _

theorem storeConsistent_updateEnrichment (id : Nat) (e : Enrichment)
    (s : Store) (hs : storeConsistent s) :
    storeConsistent (updateEnrichment id e s) := by
  intro r hr
  simp only [updateEnrichment, List.mem_map] at hr
  obtain ⟨r0, hr0, hmap⟩ := hr
  by_cases hid : r0.id = id
  · rw [← hmap, if_pos hid]
    exact enrichmentConsistent_applyEnrichment _ _
  · rw [← hmap, if_neg hid]
    exact hs r0 hr0

theorem storeConsistent_retryGo (o : Nat → ExtractResult) (k : Nat)
    (q : List PolicyRecord) (s : Store) (hs : storeConsistent s) :
    storeConsistent (retryGo o k q s).1 := by
  induction q generalizing k s with
  | nil => exact hs
  | cons r rest ih =>
    rcases hae : attemptExtract o k with ⟨out, k2⟩
    cases out with
    | enriched e =>
      simp only [retryGo, hae]
      exact ih k2 _ (storeConsistent_updateEnrichment _ _ _ hs)
    | failedItem =>
      simp only [retryGo, hae]
      exact ih k2 s hs
    | quotaAbort =>
      simp only [retryGo, hae]
      exact hs

theorem storeConsistent_applyOp (s : Store) (op : Op)
    (hs : storeConsistent s) : storeConsistent (applyOp s op) := by
  cases op with
  | ingest f o t =>
    cases f with
    | none => exact hs
    | some cs =>
      simp only [applyOp, run_once]
      exact storeConsistent_insertMany _ _ _ hs
  | reconcile o l =>
    simp only [applyOp, retry]
    exact storeConsistent_retryGo _ _ _ _ hs

theorem storeConsistent_runOps (s : Store) (ops : List Op)
    (hs : storeConsistent s) : storeConsistent (runOps s ops) := by
  induction ops generalizing s with
  | nil => exact hs
  | cons op rest ih => exact ih _ (storeConsistent_applyOp s op hs)

/-! ## Monotonicity of the analyzed flag -/

/-- An analyzed row keeps witnessing `analyzedInStore` when rows are only
appended. -/
theorem analyzedInStore_append (id : Nat) (l1 l2 : List PolicyRecord)
    (h : analyzedInStore id { records := l1, nextId := 0 } = true) :
    analyzedInStore id { records := l1 ++ l2, nextId := 0 } = true := by
  simp only [analyzedInStore] at h ⊢
  rw [List.any_append, h, Bool.true_or]

theorem analyzedInStore_insertMany (id now : Nat)
    (items : List (CandidateRecord × Option Enrichment)) (s : Store)
    (h : analyzedInStore id s = true) :
    analyzedInStore id (insertMany now items s).1 = true := by
  obtain ⟨l, hl⟩ := insertMany_records_append now items s
  simp only [analyzedInStore] at h ⊢
  rw [hl, List.any_append, h, Bool.true_or]

theorem analyzedInStore_updateEnrichment (id id0 : Nat) (e : Enrichment)
    (s : Store) (h : analyzedInStore id s = true) :
    analyzedInStore id (updateEnrichment id0 e s) = true := by
  simp only [analyzedInStore, List.any_eq_true] at h ⊢
  obtain ⟨r, hr, hpred⟩ := h
  refine ⟨if r.id = id0 then applyEnrichment e r else r, ?_, ?_⟩
  · simp only [updateEnrichment, List.mem_map]
    exact ⟨r, hr, rfl⟩
  · by_cases hid : r.id = id0
    · simp only [if_pos hid, applyEnrichment]
      simp only [Bool.and_eq_true, decide_eq_true_eq] at hpred ⊢
      exact ⟨hpred.1, trivial⟩
    · rw [if_neg hid]; exact hpred

theorem analyzedInStore_retryGo (id : Nat) (o : Nat → ExtractResult)
    (k : Nat) (q : List PolicyRecord) (s : Store)
    (h : analyzedInStore id s = true) :
    analyzedInStore id (retryGo o k q s).1 = true := by
  induction q generalizing k s with
  | nil => exact h
  | cons r rest ih =>
    rcases hae : attemptExtract o k with ⟨out, k2⟩
    cases out with
    | enriched e =>
      simp only [retryGo, hae]
      exact ih k2 _ (analyzedInStore_updateEnrichment id r.id e s h)
    | failedItem =>
      simp only [retryGo, hae]
      exact ih k2 s h
    | quotaAbort =>
      simp only [retryGo, hae]
      exact h

theorem analyzedInStore_applyOp (id : Nat) (s : Store) (op : Op)
    (h : analyzedInStore id s = true) :
    analyzedInStore id (applyOp s op) = true := by
  cases op with
  | ingest f o t =>
    cases f with
    | none => exact h
    | some cs =>
      simp only [applyOp, run_once]
      exact analyzedInStore_insertMany _ _ _ _ h
  | reconcile o l =>
    simp only [applyOp, retry]
    exact analyzedInStore_retryGo _ _ _ _ _ h

theorem analyzedInStore_runOps (id : Nat) (s : Store) (ops : List Op)
    (h : analyzedInStore id s = true) :
    analyzedInStore id (runOps s ops) = true := by
  induction ops generalizing s with
  | nil => exact h
  | cons op rest ih => exact ih _ (analyzedInStore_applyOp id s op h)

/-- Running an appended sequence is running the pieces in order. -/
theorem runOps_append (s : Store) (l1 l2 : List Op) :
    runOps s (l1 ++ l2) = runOps (runOps s l1) l2 := by
  induction l1 generalizing s with
  | nil => rfl
  | cons op rest ih =>
    simp only [List.cons_append, runOps]
    exact ih _

/-- Monotonicity along a trace of pipeline and retry operations. -/
theorem analyzedInStore_trace_mono (id : Nat) (s : Store) (ops : List Op)
    (m n : Nat) (hmn : m ≤ n)
    (h : analyzedInStore id (runOps s (ops.take m)) = true) :
    analyzedInStore id (runOps s (ops.take n)) = true := by
  have hsplit : ops.take n = ops.take m ++ ((ops.drop m).take (n - m)) := by
    rw [← List.take_add]
    congr 1
    omega
  rw [hsplit, runOps_append]
  exact analyzedInStore_runOps id _ _ h

/-! ## Fingerprint coverage after a run, and idempotence machinery -/

/-- After a successful pipeline pass, every fetched candidate's
fingerprint is stored: duplicates already were, survivors were just
persisted. -/
theorem run_once_hasHash (cs : List CandidateRecord)
    (o : Nat → ExtractResult) (now : Nat) (s : Store) :
    ∀ c ∈ cs, ((run_once (some cs) o now s).2).hasHash (fingerprint c) = true := by
  intro c hc
  simp only [run_once]
  by_cases h : s.hasHash (fingerprint c) = true
  · exact hasHash_insertMany_mono _ _ _ _ h
  · have hcs : c ∈ cs.filter (fun c => !s.hasHash (fingerprint c)) := by
      simp only [List.mem_filter, Bool.not_eq_eq_eq_not, Bool.not_true]
      exact ⟨hc, by simpa using h⟩
    have hmap := enrichBatch_map_fst o 0 (cs.filter (fun c => !s.hasHash (fingerprint c)))
    rw [← hmap] at hcs
    obtain ⟨ce, hce, hfst⟩ := List.mem_map.mp hcs
    have hmem := insertMany_hasHash_mem now _ s ce hce
    rw [hfst] at hmem
    exact hmem

/-- On a repeated run over the same feed, no candidate survives the
duplicate filter. -/
theorem second_run_filter_nil (cs : List CandidateRecord)
    (o1 : Nat → ExtractResult) (t1 : Nat) (s : Store) :
    cs.filter
      (fun c => !((run_once (some cs) o1 t1 s).2).hasHash (fingerprint c)) = [] := by
  rw [List.filter_eq_nil_iff]
  intro c hc
  simp [run_once_hasHash cs o1 t1 s c hc]

/-! ## Scheduler guard invariant -/

/-- The guard invariant: the number of pipeline executions in flight is 1
exactly when `is_running` is set, 0 otherwise. -/
def schedInv (st : SchedulerState) : Prop :=
  st.inFlight = if st.is_running then 1 else 0

theorem schedInv_step (st : SchedulerState) (ev : SchedEvent)
    (h : schedInv st) : schedInv (schedStep st ev) := by
  unfold schedInv at h ⊢
  cases ev with
  | scheduledFire =>
    by_cases hc : (st.enabled && !st.is_running) = true
    · have hr : st.is_running = false := by
        rcases (Bool.and_eq_true _ _).mp hc with ⟨_, hn⟩
        simpa using hn
      rw [hr, if_neg (by simp)] at h
      simp [schedStep, hc, h]
    · simp only [schedStep, hc, if_false, Bool.false_eq_true]
      exact h
  | manualTrigger =>
    by_cases hr : st.is_running = true
    · simp only [schedStep, hr, if_true]
      rw [hr] at h
      simpa [hr] using h
    · have hr' : st.is_running = false := by simpa using hr
      simp only [schedStep, hr', Bool.false_eq_true, if_false]
      rw [hr', if_neg (by simp)] at h
      simp [h]
  | finishRun =>
    by_cases hr : st.is_running = true
    · simp only [schedStep, hr, if_true]
      rw [hr, if_pos rfl] at h
      simp [h]
    · have hr' : st.is_running = false := by simpa using hr
      simp only [schedStep, hr', Bool.false_eq_true, if_false]
      rw [hr'] at h
      simpa [hr'] using h
  | toggle b =>
    simpa [schedStep] using h

theorem schedInv_run (st : SchedulerState) (evs : List SchedEvent)
    (h : schedInv st) : schedInv (schedRun st evs) := by
  induction evs generalizing st with
  | nil => exact h
  | cons ev rest ih => exact ih _ (schedInv_step st ev h)

/-! ## Concrete values used in the scenario claims -/

/-- A sample successful extraction, taken from the backend README's
example output. -/
def sampleEnrichment : Enrichment :=
  { category := "transportation", impact_type := "percentage"
    impact_value := 2, old_value := 28, new_value := 30
    affected_items := ["luxury cars"]
    ai_description := "GST increased by 2 percent on luxury vehicles" }

/-- A family of distinct candidates for the scenario claims. -/
def cand (n : Nat) : CandidateRecord :=
  { title := "policy " ++ toString n, summary := "summary"
    link := "http://pib.example/" ++ toString n
    published_date := "2025-12-26", source := "PIB" }

/-- Call oracle for the quota-abort scenario: the first upstream call
succeeds, every later call reports quota exhaustion. -/
def quotaAfterFirst : Nat → ExtractResult :=
  fun n => if n = 0 then .success sampleEnrichment else .quotaExceeded

/-- Call oracle for the malformed-output scenario: the first upstream
call returns an unparseable payload, later calls succeed. -/
def malformedFirst : Nat → ExtractResult :=
  fun n => if n = 0 then .malformed else .success sampleEnrichment

/-- A quota-reset extractor: every call succeeds. -/
def alwaysSuccess : Nat → ExtractResult := fun _ => .success sampleEnrichment

/-- An exhausted extractor: every call reports quota exhaustion. -/
def alwaysQuota : Nat → ExtractResult := fun _ => .quotaExceeded

/-- A store holding three unanalyzed records, oldest first. -/
def unanalyzedStore : Store :=
  { records :=
      [ schemaDefaultRow 0 0 "a" "sa" "http://pib.example/a" "d" ("a", "http://pib.example/a")
      , schemaDefaultRow 1 1 "b" "sb" "http://pib.example/b" "d" ("b", "http://pib.example/b")
      , schemaDefaultRow 2 2 "c" "sc" "http://pib.example/c" "d" ("c", "http://pib.example/c") ]
    nextId := 3 }

/-! ## The claims -/

/-- C1: in every reachable store state, every persisted record with
`analyzed = true` has all seven enrichment fields (category, impact-type,
impact-value, old-value, new-value, affected-items, ai-description)
populated, and every record with `analyzed = false` has them all null. -/
theorem claim_c1_enrichment_group_invariant (s : Store) (hs : Reachable s) :
    ∀ r ∈ s.records, enrichmentConsistent r := by
  obtain ⟨ops, hops⟩ := hs
  rw [← hops]
  apply storeConsistent_runOps
  intro r hr
  exact absurd hr (by simp [emptyStore])

/-- C1 witness: a concrete enriched record in a concrete reachable store
satisfies the group invariant. -/
theorem claim_c1_enrichment_group_invariant_witness :
    enrichmentConsistent (mkRecord 0 0 (cand 1) (some sampleEnrichment)) := by
  have h := claim_c1_enrichment_group_invariant
    (runOps emptyStore [Op.ingest (some [cand 1]) alwaysSuccess 0])
    ⟨[Op.ingest (some [cand 1]) alwaysSuccess 0], rfl⟩
  exact h _ (by decide)

/-- C2: on a quota failure the extractor retries the same item at most 2
more times (at most 3 upstream calls per item) and then aborts the rest of
the batch; the batch keeps every surviving candidate, the aborted ones
unenriched; and in the 5-candidate scenario with quota exhaustion from the
2nd upstream call on, all 5 records are saved with exactly the first one
analyzed. -/
theorem claim_c2_quota_abort_policy :
    (∀ (o : Nat → ExtractResult) (k : Nat), (attemptExtract o k).2 ≤ k + 3) ∧
    (∀ (o : Nat → ExtractResult) (k : Nat),
       o k = .quotaExceeded → o (k + 1) = .quotaExceeded →
       o (k + 2) = .quotaExceeded →
       attemptExtract o k = (.quotaAbort, k + 3)) ∧
    (∀ (o : Nat → ExtractResult) (k k2 : Nat) (c : CandidateRecord)
       (rest : List CandidateRecord),
       attemptExtract o k = (.quotaAbort, k2) →
       enrichBatch o k (c :: rest) = (c, none) :: rest.map (fun r => (r, none))) ∧
    (∀ (o : Nat → ExtractResult) (k : Nat) (l : List CandidateRecord),
       (enrichBatch o k l).map Prod.fst = l) ∧
    ((run_once (some [cand 1, cand 2, cand 3, cand 4, cand 5])
        quotaAfterFirst 0 emptyStore).1.items_saved = 5 ∧
     (run_once (some [cand 1, cand 2, cand 3, cand 4, cand 5])
        quotaAfterFirst 0 emptyStore).1.items_unenriched = 4 ∧
     ((run_once (some [cand 1, cand 2, cand 3, cand 4, cand 5])
        quotaAfterFirst 0 emptyStore).2.records.map PolicyRecord.analyzed)
        = [true, false, false, false, false]) := by
  refine ⟨attemptExtract_calls_le, ?_, ?_, enrichBatch_map_fst, by decide, by decide, by decide⟩
  · intro o k h0 h1 h2
    simp [attemptExtract, h0, h1, h2]
  · intro o k k2 c rest h
    simp [enrichBatch, h]

/-- C2 witness: with an always-exhausted extractor, the first item is
abandoned after exactly three upstream calls and the whole batch is kept
unenriched. -/
theorem claim_c2_quota_abort_policy_witness :
    attemptExtract alwaysQuota 0 = (.quotaAbort, 3) ∧
    enrichBatch alwaysQuota 0 [cand 1, cand 2] = [(cand 1, none), (cand 2, none)] := by
  refine ⟨claim_c2_quota_abort_policy.2.1 alwaysQuota 0 rfl rfl rfl, ?_⟩
  have h := claim_c2_quota_abort_policy.2.2.1 alwaysQuota 0 3 (cand 1) [cand 2]
    (claim_c2_quota_abort_policy.2.1 alwaysQuota 0 rfl rfl rfl)
  simpa using h

/-- C3: a second pipeline run over the same feed saves zero new records —
every candidate is counted as a duplicate skip and the store is returned
unchanged (nothing created or re-enriched). -/
theorem claim_c3_pipeline_idempotent (s : Store) (cs : List CandidateRecord)
    (o1 o2 : Nat → ExtractResult) (t1 t2 : Nat) :
    run_once (some cs) o2 t2 (run_once (some cs) o1 t1 s).2 =
      ({ status := .success, items_seen := cs.length, items_saved := 0
         items_skipped_duplicate := cs.length, items_unenriched := 0 },
       (run_once (some cs) o1 t1 s).2) := by
  have hnil := second_run_filter_nil cs o1 t1 s
  conv_lhs => rw [run_once]
  simp [hnil, enrichBatch, insertMany]

/-- C4: malformed-output and transient failures are terminal for the item
only — a single upstream call, no retry, the item left unenriched — and the
batch continues with the remaining items; in the malformed-payload
scenario both records are saved, the failed one with analyzed = false. -/
theorem claim_c4_item_failure_policy :
    (∀ (o : Nat → ExtractResult) (k : Nat),
       o k = .malformed → attemptExtract o k = (.failedItem, k + 1)) ∧
    (∀ (o : Nat → ExtractResult) (k : Nat),
       o k = .transient → attemptExtract o k = (.failedItem, k + 1)) ∧
    (∀ (o : Nat → ExtractResult) (k k2 : Nat) (c : CandidateRecord)
       (rest : List CandidateRecord),
       attemptExtract o k = (.failedItem, k2) →
       enrichBatch o k (c :: rest) = (c, none) :: enrichBatch o k2 rest) ∧
    ((run_once (some [cand 1, cand 2]) malformedFirst 0 emptyStore).1.items_saved = 2 ∧
     ((run_once (some [cand 1, cand 2]) malformedFirst 0 emptyStore).2.records.map
        PolicyRecord.analyzed) = [false, true]) := by
  refine ⟨?_, ?_, ?_, by decide, by decide⟩
  · intro o k h; simp [attemptExtract, h]
  · intro o k h; simp [attemptExtract, h]
  · intro o k k2 c rest h
    simp [enrichBatch, h]

/-- C4 witness: an unparseable first payload fails only the first item
(one call, no retry) and the batch result keeps both items. -/
theorem claim_c4_item_failure_policy_witness :
    attemptExtract malformedFirst 0 = (.failedItem, 1) ∧
    enrichBatch malformedFirst 0 [cand 1, cand 2]
      = (cand 1, none) :: enrichBatch malformedFirst 1 [cand 2] := by
  refine ⟨claim_c4_item_failure_policy.1 malformedFirst 0 rfl, ?_⟩
  exact claim_c4_item_failure_policy.2.2.1 malformedFirst 0 1 (cand 1) [cand 2]
    (claim_c4_item_failure_policy.1 malformedFirst 0 rfl)

/-- C5: across any sequence of pipeline runs and retry passes the
analyzed status of a record id is monotone — it never goes back from true
to false — and therefore the false-to-true transition happens at most
once along the trace. -/
theorem claim_c5_analyzed_monotone (s : Store) (ops : List Op) (id : Nat) :
    (∀ m n : Nat, m ≤ n →
       analyzedInStore id (runOps s (ops.take m)) = true →
       analyzedInStore id (runOps s (ops.take n)) = true) ∧
    (∀ i j : Nat, i < j →
       analyzedInStore id (runOps s (ops.take (i + 1))) = true →
       analyzedInStore id (runOps s (ops.take j)) = false → False) := by
  constructor
  · exact fun m n hmn => analyzedInStore_trace_mono id s ops m n hmn
  · intro i j hij hi hj
    have hjt := analyzedInStore_trace_mono id s ops (i + 1) j hij hi
    rw [hjt] at hj
    exact Bool.noConfusion hj

/-- C5 witness: in a concrete analyzed store the flag stays analyzed
along the empty trace. -/
theorem claim_c5_analyzed_monotone_witness :
    analyzedInStore 0 (runOps (retry alwaysSuccess 10 unanalyzedStore).2
      (List.take 0 [])) = true := by
  exact (claim_c5_analyzed_monotone (retry alwaysSuccess 10 unanalyzedStore).2
    [] 0).1 0 0 (Nat.le_refl 0) (by decide)

/-- C6: the retry service queries at most `limit` records, all
unanalyzed, oldest first (given a store kept in timestamp order); it is a
no-op when every record is analyzed (never re-attempting analyzed
records); a quota-exhausted extractor aborts the whole retry batch with
the store unchanged; and with 3 unanalyzed records and a quota-reset
extractor, `retry 10` analyzes all 3 and reports still_unanalyzed = 0. -/
theorem claim_c6_retry_service (o : Nat → ExtractResult) (limit : Nat)
    (s : Store) :
    (query_unanalyzed limit s).length ≤ limit ∧
    (∀ r ∈ query_unanalyzed limit s, r.analyzed = false) ∧
    (List.Pairwise (fun a b : PolicyRecord => a.created_at ≤ b.created_at) s.records →
       List.Pairwise (fun a b : PolicyRecord => a.created_at ≤ b.created_at)
         (query_unanalyzed limit s)) ∧
    ((∀ r ∈ s.records, r.analyzed = true) →
       retry o limit s = ({ attempted := 0, succeeded := 0, still_unanalyzed := 0 }, s)) ∧
    (o 0 = .quotaExceeded → o 1 = .quotaExceeded → o 2 = .quotaExceeded →
       (retry o limit s).2 = s ∧ (retry o limit s).1.succeeded = 0) ∧
    ((retry alwaysSuccess 10 unanalyzedStore).1
        = { attempted := 3, succeeded := 3, still_unanalyzed := 0 } ∧
     ∀ r ∈ (retry alwaysSuccess 10 unanalyzedStore).2.records,
       r.analyzed = true) := by
  refine ⟨?_, ?_, ?_, ?_, ?_, by decide, by decide⟩
  · simp only [query_unanalyzed]
    rw [List.length_take]
    exact min_le_left _ _
  · intro r hr
    simp only [query_unanalyzed] at hr
    have hmem := List.take_subset _ _ hr
    have := (List.mem_filter.mp hmem).2
    simpa using this
  · intro hp
    apply List.Pairwise.sublist _ hp
    exact (List.take_sublist _ _).trans (List.filter_sublist _)
  · intro hall
    have hq : s.records.filter (fun r => !r.analyzed) = [] := by
      rw [List.filter_eq_nil_iff]
      intro r hr
      simp [hall r hr]
    simp [retry, query_unanalyzed, hq, retryGo]
  · intro h0 h1 h2
    have habort : attemptExtract o 0 = (.quotaAbort, 3) := by
      simp [attemptExtract, h0, h1, h2]
    rcases hq : query_unanalyzed limit s with _ | ⟨r, rest⟩
    · constructor <;> simp [retry, hq, retryGo]
    · constructor <;> simp [retry, hq, retryGo, habort]

/-- C6 witness: with an exhausted extractor the retry pass over the
concrete unanalyzed store leaves the store unchanged with zero
successes. -/
theorem claim_c6_retry_service_witness :
    (retry alwaysQuota 10 unanalyzedStore).2 = unanalyzedStore ∧
    (retry alwaysQuota 10 unanalyzedStore).1.succeeded = 0 := by
  exact (claim_c6_retry_service alwaysQuota 10 unanalyzedStore).2.2.2.2.1 rfl rfl rfl

/-- C7: `run_once` is a total function of its inputs — no exception
crosses the contract boundary; a total Source Adapter failure yields a
failed summary with the store untouched, and any fetched batch yields a
success summary (internal extraction failures folded into the counts). -/
theorem claim_c7_run_once_boundary :
    (∀ (o : Nat → ExtractResult) (t : Nat) (s : Store),
       run_once none o t s =
         ({ status := .failed, items_seen := 0, items_saved := 0
            items_skipped_duplicate := 0, items_unenriched := 0 }, s)) ∧
    (∀ (cs : List CandidateRecord) (o : Nat → ExtractResult) (t : Nat)
       (s : Store), (run_once (some cs) o t s).1.status = .success) := by
  exact ⟨fun o t s => rfl, fun cs o t s => rfl⟩

/-- C8: fingerprint is a pure function of the normalized title and the
link (summary when the link is absent): identical (title, link) pairs give
identical digests, titles differing only in surrounding whitespace or
letter case give identical digests, and differing normalized titles or
differing links give differing digests. -/
theorem claim_c8_fingerprint (c1 c2 : CandidateRecord) :
    (c1.title = c2.title → c1.link = c2.link → c1.link ≠ "" →
       fingerprint c1 = fingerprint c2) ∧
    (normalizeTitle c1.title = normalizeTitle c2.title → c1.link = c2.link →
       c1.link ≠ "" → fingerprint c1 = fingerprint c2) ∧
    (normalizeTitle c1.title ≠ normalizeTitle c2.title →
       fingerprint c1 ≠ fingerprint c2) ∧
    (c1.link ≠ "" → c2.link ≠ "" → c1.link ≠ c2.link →
       fingerprint c1 ≠ fingerprint c2) := by
  refine ⟨?_, ?_, ?_, ?_⟩
  · intro ht hl hne
    have hne2 : c2.link ≠ "" := hl ▸ hne
    simp [fingerprint, ht, hl, if_neg hne2]
  · intro ht hl hne
    have hne2 : c2.link ≠ "" := hl ▸ hne
    simp [fingerprint, ht, hl, if_neg hne2]
  · intro hne heq
    exact hne (congrArg Prod.fst heq)
  · intro h1 h2 hne heq
    have hsnd := congrArg Prod.snd heq
    simp only [fingerprint, if_neg h1, if_neg h2] at hsnd
    exact hne hsnd

/-- C8 witness: two candidates whose titles differ only in surrounding
whitespace and case, with the same link, get the same digest. -/
theorem claim_c8_fingerprint_witness :
    fingerprint { title := "  GST Hike  ", summary := "x", link := "http://a"
                  published_date := "d", source := "PIB" }
      = fingerprint { title := "gst hike", summary := "y", link := "http://a"
                      published_date := "e", source := "ET" } := by
  exact (claim_c8_fingerprint _ _).2.1 (by decide) rfl (by decide)

/-- C9: under the shared is_running guard, at most one pipeline execution
is ever in flight (the in-flight count matches the guard and never
exceeds 1), and a manual trigger arriving while a run is active is
rejected as a no-op. -/
theorem claim_c9_single_flight :
    (∀ evs : List SchedEvent, (schedRun initSched evs).inFlight ≤ 1) ∧
    (∀ evs : List SchedEvent,
       (schedRun initSched evs).inFlight =
         if (schedRun initSched evs).is_running then 1 else 0) ∧
    (∀ st : SchedulerState, st.is_running = true →
       schedStep st .manualTrigger = st) := by
  have hinv : ∀ evs, schedInv (schedRun initSched evs) := by
    intro evs
    apply schedInv_run
    simp [schedInv, initSched]
  refine ⟨?_, hinv, ?_⟩
  · intro evs
    have h := hinv evs
    unfold schedInv at h
    rw [h]
    split <;> simp
  · intro st h
    simp [schedStep, h]

/-- C9 witness: in a concrete state with a run in flight the manual
trigger changes nothing. -/
theorem claim_c9_single_flight_witness :
    schedStep { is_running := true, inFlight := 1, enabled := true
                total_runs := 0 } .manualTrigger
      = { is_running := true, inFlight := 1, enabled := true
          total_runs := 0 } := by
  exact claim_c9_single_flight.2.2 _ rfl

/-- C10 counterexample: per the `CREATE TABLE policies` schema
(`test-connection.sh`, backend README), a row inserted without explicit
enrichment values has NULL `affected_items` and NULL `category` — not the
empty list and not the tag general. -/
theorem claim_c10_counterexample :
    (schemaDefaultRow 0 0 "t" "s" "http://l" "d" ("t", "http://l")).affected_items
        ≠ some [] ∧
    (schemaDefaultRow 0 0 "t" "s" "http://l" "d" ("t", "http://l")).category
        ≠ some "general" := by
  decide

/-- C10 (amended): a row inserted without explicit enrichment values
receives the schema defaults analyzed = false, source = PIB and
created_at = insertion time; `category` and `affected_items` have no
schema default and are null, as are all other enrichment fields — and the
pipeline's unenriched inserts behave the same way. -/
theorem claim_c10_schema_defaults (id now : Nat) (t su l d : String)
    (h : Digest) :
    (schemaDefaultRow id now t su l d h).analyzed = false ∧
    (schemaDefaultRow id now t su l d h).source = "PIB" ∧
    (schemaDefaultRow id now t su l d h).created_at = now ∧
    (schemaDefaultRow id now t su l d h).category = none ∧
    (schemaDefaultRow id now t su l d h).affected_items = none ∧
    ∀ (c : CandidateRecord),
      (mkRecord id now c none).analyzed = false ∧
      (mkRecord id now c none).created_at = now ∧
      (mkRecord id now c none).category = none ∧
      (mkRecord id now c none).affected_items = none := by
  exact ⟨rfl, rfl, rfl, rfl, rfl, fun c => ⟨rfl, rfl, rfl, rfl⟩⟩

end BudgetImpactLens
